import Mathlib

/-!
Shallow embedding of `src/python/src/server/services/mcp_client_registry.py`.

The registry stores rows of the `mcp_clients` table through an abstract
backend (Supabase in the source).  We model the backend table as a list of
rows and the three backend primitives the source uses —
`select(...).eq(display_name, n)`, `update(payload).eq(display_name, n)` and
`insert(row)` — as pure functions on that list.  Timestamps
(`_now_iso()` results) are modelled as natural numbers; each call of
`_now_iso()` becomes an explicit parameter, and a monotone clock is expressed
as an ordering hypothesis between those parameters.  A backend failure
(the `except Exception` paths) is modelled by a boolean `fail` parameter
choosing the handler's result.
-/

namespace MCPRegistry

/-- Capabilities documents (`Dict[str, Any]` in the source) modelled as
association lists; the empty dict `{}` is `[]`. -/
abbrev Caps := List (String × String)

/-- A row of the `mcp_clients` table.  Every column other than
`display_name` and `status` is nullable; a `none` models both an absent
dict key and SQL NULL (Python's `row.get` returns `None` for both). -/
structure Row where
  display_name : String
  status : String
  client_id : Option String := none
  first_seen : Option Nat := none
  last_seen : Option Nat := none
  last_seen_version : Option String := none
  capabilities : Option Caps := none
deriving Repr, DecidableEq

/-- The `MCPClient` dataclass of the source. -/
structure MCPClient where
  display_name : String
  status : String
  client_id : Option String := none
  last_seen : Option Nat := none
  first_seen : Option Nat := none
  last_seen_version : Option String := none
  capabilities : Option Caps := none
deriving Repr, DecidableEq

/-- `MCPClientRegistry._to_model`: field-by-field copy of a row dict into the
dataclass (`row.get` of each column). -/
def to_model (r : Row) : MCPClient :=
  { display_name := r.display_name
    status := r.status
    client_id := r.client_id
    last_seen := r.last_seen
    first_seen := r.first_seen
    last_seen_version := r.last_seen_version
    capabilities := r.capabilities }

/-- The backend table state. -/
abbrev Store := List Row

/-- Backend `select(...).eq("display_name", name)`: all rows whose
`display_name` equals `name`, in table order. -/
def selectEq (s : Store) (name : String) : List Row :=
  s.filter (fun r => r.display_name == name)

/-- An update payload sent to the backend.  `status` and `last_seen` are
always present; an optional field is `some v` exactly when the Python code
put the key into the `update` dict (which it does only for non-`None`
arguments). -/
structure UpdatePayload where
  status : String
  last_seen : Nat
  client_id : Option String := none
  last_seen_version : Option String := none
  capabilities : Option Caps := none
deriving Repr, DecidableEq

/-- Applying an update payload to a row: keys present in the payload
overwrite the row's fields, absent keys leave them unchanged.  This is both
the backend's `update` semantics and Python's dict merge `{**row, **update}`
used when the backend returns no data. -/
def applyUpdate (u : UpdatePayload) (r : Row) : Row :=
  { r with
    status := u.status
    last_seen := some u.last_seen
    client_id := match u.client_id with | some c => some c | none => r.client_id
    last_seen_version :=
      match u.last_seen_version with | some v => some v | none => r.last_seen_version
    capabilities := match u.capabilities with | some c => some c | none => r.capabilities }

/-- Backend `update(u).eq("display_name", name).execute()`: returns the list
of updated rows (the response `data`) together with the new table state. -/
def updateEq (s : Store) (name : String) (u : UpdatePayload) : List Row × Store :=
  ((selectEq s name).map (applyUpdate u),
   s.map (fun r => if r.display_name == name then applyUpdate u r else r))

/-- Backend `insert(row).execute()`: returns the inserted row as response
`data` together with the new table state. -/
def insertTable (s : Store) (r : Row) : List Row × Store :=
  ([r], s ++ [r])

/-- `MCPClientRegistry.mark_connected`.

`now` is the `_now_iso()` read in the `try` block; `tLast` and `tFirst` are
the two `_now_iso()` reads of the `except` handler, in evaluation order
(`last_seen=self._now_iso()` is evaluated before `first_seen=self._now_iso()`,
so a monotone clock gives `tLast ≤ tFirst`).  `fail = true` models any
backend exception, answered by the handler's in-memory fallback record. -/
def mark_connected (s : Store) (fail : Bool) (now tLast tFirst : Nat)
    (display_name : String) (client_id : Option String := none)
    (version : Option String := none) (capabilities : Option Caps := none) :
    MCPClient × Store :=
  if fail then
    ({ display_name := display_name
       status := "connected"
       client_id := client_id
       last_seen := some tLast
       first_seen := some tFirst
       last_seen_version := version
       capabilities := some (capabilities.getD []) }, s)
  else
    match ((selectEq s display_name).take 1).head? with
    | some row =>
      let update : UpdatePayload :=
        { status := "connected", last_seen := now, client_id := client_id
          last_seen_version := version, capabilities := capabilities }
      let updated := updateEq s display_name update
      let row2 := updated.1.headD (applyUpdate update row)
      (to_model row2, updated.2)
    | none =>
      let ins : Row :=
        { display_name := display_name
          client_id := client_id
          status := "connected"
          first_seen := some now
          last_seen := some now
          last_seen_version := version
          capabilities := some (capabilities.getD []) }
      let res := insertTable s ins
      (to_model (res.1.headD ins), res.2)

/-- `MCPClientRegistry.mark_disconnected`.  `now` is the single `_now_iso()`
read; `fail = true` models a backend exception, answered with `None`. -/
def mark_disconnected (s : Store) (fail : Bool) (now : Nat) (display_name : String) :
    Option MCPClient × Store :=
  if fail then (none, s)
  else
    let update : UpdatePayload := { status := "disconnected", last_seen := now }
    let updated := updateEq s display_name update
    match updated.1 with
    | row :: _ => (some (to_model row), updated.2)
    | [] =>
      let ins : Row :=
        { display_name := display_name
          status := "disconnected"
          first_seen := some now
          last_seen := some now }
      let res := insertTable updated.2 ins
      (some (to_model (res.1.headD ins)), res.2)

/-- Sort key rank of the Python re-sort: `r.get("status") != "connected"`
(`False` sorts before `True`). -/
def statusRank (r : Row) : Nat :=
  if r.status == "connected" then 0 else 1

/-- Comparison realising the backend `.order("last_seen", desc=True)`. -/
def lastSeenDescLe (a b : Row) : Bool :=
  b.last_seen.getD 0 ≤ a.last_seen.getD 0

/-- Comparison realising Python's
`rows.sort(key=lambda r: (r.get("status") != "connected", r.get("display_name", "")))`:
lexicographic order on the pair (status rank, display name). -/
def pyKeyLe (a b : Row) : Bool :=
  statusRank a < statusRank b ||
    (statusRank a == statusRank b && a.display_name ≤ b.display_name)

/-- `MCPClientRegistry.list_all`: fetch all rows ordered by `last_seen`
descending, re-sort stably by (status ≠ connected, display_name), map to
models; any backend exception yields `[]`. -/
def list_all (s : Store) (fail : Bool) : List MCPClient :=
  if fail then []
  else
    let rows := s.mergeSort lastSeenDescLe
    let sorted := rows.mergeSort pyKeyLe
    sorted.map to_model

/-- `MCPClientRegistry.exists`: `bool(resp.data)` for a select by
`display_name`; any backend exception yields `false`. -/
def exists_ (s : Store) (fail : Bool) (display_name : String) : Bool :=
  if fail then false else !((selectEq s display_name).take 1).isEmpty

/-- One registry call, with its clock reads and failure outcome, for
reasoning about sequences of operations. -/
inductive Op where
  | connect (fail : Bool) (now tLast tFirst : Nat) (name : String)
      (client_id : Option String) (version : Option String) (capabilities : Option Caps)
  | disconnect (fail : Bool) (now : Nat) (name : String)
deriving Repr

/-- The table state after one operation. -/
def applyOp (s : Store) : Op → Store
  | .connect fail now tL tF name cid v caps =>
      (mark_connected s fail now tL tF name cid v caps).2
  | .disconnect fail now name => (mark_disconnected s fail now name).2

/-- The table state after a sequence of operations. -/
def runOps (s : Store) (ops : List Op) : Store :=
  ops.foldl applyOp s

/-- No two rows share a `display_name`. -/
def uniqueNames (s : Store) : Prop :=
  s.Pairwise (fun a b => a.display_name ≠ b.display_name)

/-- Number of rows with a given `display_name`. -/
def countName (s : Store) (name : String) : Nat :=
  s.countP (fun r => r.display_name == name)

/-- `first_seen ≤ last_seen` for a returned record, when both are present. -/
def clientFLOK (c : MCPClient) : Bool :=
  match c.first_seen, c.last_seen with
  | some f, some l => f ≤ l
  | _, _ => true

/-- `first_seen ≤ last_seen` for a stored row, when both are present. -/
def rowFLOK (r : Row) : Bool :=
  match r.first_seen, r.last_seen with
  | some f, some l => f ≤ l
  | _, _ => true

/-- Every timestamp stored in `s` is at most `t` (the clock has not yet
passed `t`). -/
def storeTimesLE (s : Store) (t : Nat) : Prop :=
  ∀ r ∈ s, (∀ u, r.first_seen = some u → u ≤ t) ∧ (∀ u, r.last_seen = some u → u ≤ t)

/-- Sort-key rank of a returned record: `0` for connected, `1` otherwise. -/
def statusRankC (c : MCPClient) : Nat :=
  if c.status == "connected" then 0 else 1

/-- Number of returned records with a given `display_name`. -/
def countNameC (l : List MCPClient) (name : String) : Nat :=
  l.countP (fun c => c.display_name == name)

/-- A sample stored row used to instantiate theorems at concrete inputs. -/
def sampleRow : Row :=
  { display_name := "agent1", status := "connected", client_id := some "A",
    first_seen := some 0, last_seen := some 0,
    last_seen_version := some "1.0", capabilities := some [] }

/-! ### Basic lemmas about the backend primitives -/

theorem head?_take_one {α : Type} (l : List α) : (l.take 1).head? = l.head? := by
  cases l <;> rfl

theorem applyUpdate_display_name (u : UpdatePayload) (r : Row) :
    (applyUpdate u r).display_name = r.display_name := rfl

theorem applyUpdate_first_seen (u : UpdatePayload) (r : Row) :
    (applyUpdate u r).first_seen = r.first_seen := rfl

theorem applyUpdate_status (u : UpdatePayload) (r : Row) :
    (applyUpdate u r).status = u.status := rfl

theorem applyUpdate_last_seen (u : UpdatePayload) (r : Row) :
    (applyUpdate u r).last_seen = some u.last_seen := rfl

theorem selectEq_head?_eq_some {s : Store} {name : String} {r : Row}
    (h : (selectEq s name).head? = some r) :
    ∃ t, selectEq s name = r :: t := by
  cases hsel : selectEq s name with
  | nil => rw [hsel] at h; simp at h
  | cons a t =>
    rw [hsel] at h
    simp only [List.head?_cons, Option.some.injEq] at h
    exact ⟨t, by rw [h]⟩

theorem mem_of_mem_selectEq {s : Store} {name : String} {r : Row}
    (h : r ∈ selectEq s name) : r ∈ s := by
  exact List.mem_of_mem_filter h

theorem display_name_of_mem_selectEq {s : Store} {name : String} {r : Row}
    (h : r ∈ selectEq s name) : r.display_name = name := by
  have := List.of_mem_filter h
  simpa using this

/-- Characterisation of `mark_connected` on the success path when a row with
the display name already exists: the first matching row, updated, is
returned and all matching rows are updated in place. -/
theorem mark_connected_found (s : Store) (now tLast tFirst : Nat) (name : String)
    (cid v : Option String) (caps : Option Caps) (r : Row)
    (h : (selectEq s name).head? = some r) :
    mark_connected s false now tLast tFirst name cid v caps =
      (to_model (applyUpdate
          { status := "connected", last_seen := now, client_id := cid
            last_seen_version := v, capabilities := caps } r),
       (updateEq s name
          { status := "connected", last_seen := now, client_id := cid
            last_seen_version := v, capabilities := caps }).2) := by
  obtain ⟨t, ht⟩ := selectEq_head?_eq_some h
  simp [mark_connected, updateEq, ht, head?_take_one]

/-- Characterisation of `mark_connected` on the success path when no row with
the display name exists: a fresh connected row is inserted (capabilities
defaulted to the empty document) and returned. -/
theorem mark_connected_new (s : Store) (now tLast tFirst : Nat) (name : String)
    (cid v : Option String) (caps : Option Caps)
    (h : selectEq s name = []) :
    mark_connected s false now tLast tFirst name cid v caps =
      (to_model
        { display_name := name, client_id := cid, status := "connected"
          first_seen := some now, last_seen := some now, last_seen_version := v
          capabilities := some (caps.getD []) },
       s ++ [{ display_name := name, client_id := cid, status := "connected"
               first_seen := some now, last_seen := some now, last_seen_version := v
               capabilities := some (caps.getD []) }]) := by
  simp [mark_connected, insertTable, h, head?_take_one]

/-- Characterisation of `mark_connected` on the failure path: the in-memory
fallback record built from the inputs is returned and the table is
untouched. -/
theorem mark_connected_fail (s : Store) (now tLast tFirst : Nat) (name : String)
    (cid v : Option String) (caps : Option Caps) :
    mark_connected s true now tLast tFirst name cid v caps =
      ({ display_name := name, status := "connected", client_id := cid
         last_seen := some tLast, first_seen := some tFirst
         last_seen_version := v, capabilities := some (caps.getD []) }, s) := by
  simp [mark_connected]

/-- Characterisation of `mark_disconnected` on the success path when a
matching row exists. -/
theorem mark_disconnected_found (s : Store) (now : Nat) (name : String) (r : Row)
    (h : (selectEq s name).head? = some r) :
    mark_disconnected s false now name =
      (some (to_model (applyUpdate { status := "disconnected", last_seen := now } r)),
       (updateEq s name { status := "disconnected", last_seen := now }).2) := by
  obtain ⟨t, ht⟩ := selectEq_head?_eq_some h
  simp [mark_disconnected, updateEq, ht]

/-- Characterisation of `mark_disconnected` on the success path when no
matching row exists: a bare disconnected row is inserted and returned. -/
theorem mark_disconnected_new (s : Store) (now : Nat) (name : String)
    (h : selectEq s name = []) :
    mark_disconnected s false now name =
      (some (to_model
        { display_name := name, status := "disconnected"
          first_seen := some now, last_seen := some now }),
       s.map (fun r =>
          if r.display_name == name then
            applyUpdate { status := "disconnected", last_seen := now } r
          else r) ++
        [{ display_name := name, status := "disconnected"
           first_seen := some now, last_seen := some now }]) := by
  simp [mark_disconnected, updateEq, insertTable, h]

/-- When no row matches, the conditional update leaves the table unchanged. -/
theorem updateEq_store_of_none {s : Store} {name : String} (u : UpdatePayload)
    (h : selectEq s name = []) :
    (updateEq s name u).2 = s := by
  have hall : ∀ r ∈ s, (r.display_name == name) = false := by
    intro r hr
    by_contra hcon
    have hmem : r ∈ selectEq s name :=
      List.mem_filter.mpr ⟨hr, by simpa using hcon⟩
    rw [h] at hmem
    simp at hmem
  simp only [updateEq]
  calc s.map (fun r => if r.display_name == name then applyUpdate u r else r)
      = s.map id := List.map_congr_left (fun r hr => by rw [hall r hr]; simp)
    _ = s := List.map_id s

/-- A nil `selectEq` means no stored row carries the name. -/
theorem not_name_of_selectEq_nil {s : Store} {name : String}
    (h : selectEq s name = []) : ∀ a ∈ s, a.display_name ≠ name := by
  intro a ha hcon
  have hmem : a ∈ selectEq s name :=
    List.mem_filter.mpr ⟨ha, by simpa using hcon⟩
  rw [h] at hmem
  simp at hmem

/-- Filtering by name commutes with a map that preserves `display_name`. -/
theorem selectEq_map_preserving {s : Store} {name : String} {g : Row → Row}
    (hg : ∀ r, (g r).display_name = r.display_name) :
    selectEq (s.map g) name = (selectEq s name).map g := by
  simp only [selectEq]
  induction s with
  | nil => rfl
  | cons a t ih =>
    simp only [List.map_cons, List.filter_cons, hg a]
    cases hb : (a.display_name == name) <;> simp [hb, ih]

/-- The conditional-update function preserves `display_name`. -/
theorem updateFun_display_name (name : String) (u : UpdatePayload) (r : Row) :
    ((fun r => if r.display_name == name then applyUpdate u r else r) r).display_name
      = r.display_name := by
  by_cases hb : r.display_name == name <;> simp [hb, applyUpdate_display_name]

/-- After a conditional update by name, the rows matching that name are
exactly the previously matching rows, updated, in order. -/
theorem selectEq_updateEq (s : Store) (name : String) (u : UpdatePayload) :
    selectEq (updateEq s name u).2 name = (selectEq s name).map (applyUpdate u) := by
  simp only [updateEq]
  rw [selectEq_map_preserving (updateFun_display_name name u)]
  exact List.map_congr_left (fun r hr => by
    have := display_name_of_mem_selectEq hr
    simp [this])

theorem countName_eq_length (s : Store) (name : String) :
    countName s name = (selectEq s name).length := by
  simp [countName, selectEq, List.countP_eq_length_filter]

theorem selectEq_eq_nil_iff {s : Store} {name : String} :
    selectEq s name = [] ↔ countName s name = 0 := by
  rw [countName_eq_length, List.length_eq_zero]

/-- Rows with distinct names contain each name at most once. -/
theorem countName_le_one_of_uniqueNames {s : Store} (hs : uniqueNames s) (name : String) :
    countName s name ≤ 1 := by
  induction s with
  | nil => simp [countName]
  | cons a t ih =>
    have hs' := (List.pairwise_cons.mp hs)
    obtain ⟨ha, ht⟩ := hs'
    by_cases hb : a.display_name = name
    · have hzero : countName t name = 0 := by
        rw [countName, List.countP_eq_zero]
        intro r hr
        simp only [beq_iff_eq]
        intro hrname
        exact (ha r hr) (hb.trans hrname.symm)
      have hstep : countName (a :: t) name = countName t name + 1 := by
        simp [countName, List.countP_cons, hb]
      rw [hstep, hzero]
    · have hle := ih ht
      have hstep : countName (a :: t) name = countName t name := by
        simp [countName, List.countP_cons, hb]
      rw [hstep]
      exact hle

theorem countName_map_preserving {s : Store} {g : Row → Row}
    (hg : ∀ r, (g r).display_name = r.display_name) (name : String) :
    countName (s.map g) name = countName s name := by
  simp only [countName, List.countP_map]
  exact List.countP_congr (fun r _ => by simp [Function.comp, hg r])

theorem countName_append_single (s : Store) (r : Row) (name : String) :
    countName (s ++ [r]) name
      = countName s name + (if r.display_name == name then 1 else 0) := by
  simp only [countName, List.countP_append, List.countP_cons, List.countP_nil]
  cases hb : (r.display_name == name) <;> simp [hb]

theorem uniqueNames_map_preserving {s : Store} {g : Row → Row}
    (hg : ∀ r, (g r).display_name = r.display_name) (hs : uniqueNames s) :
    uniqueNames (s.map g) := by
  unfold uniqueNames at *
  rw [List.pairwise_map]
  exact hs.imp (by intro a b hab; simpa [hg] using hab)

theorem uniqueNames_append_single {s : Store} {r : Row}
    (hs : uniqueNames s) (h : ∀ a ∈ s, a.display_name ≠ r.display_name) :
    uniqueNames (s ++ [r]) := by
  unfold uniqueNames
  rw [List.pairwise_append]
  refine ⟨hs, List.pairwise_singleton _ _, ?_⟩
  intro a ha b hb
  simp only [List.mem_singleton] at hb
  subst hb
  exact h a ha

/-- Every registry operation preserves uniqueness of display names. -/
theorem uniqueNames_applyOp {s : Store} (hs : uniqueNames s) (op : Op) :
    uniqueNames (applyOp s op) := by
  cases op with
  | connect fail now tL tF name cid v caps =>
    cases fail with
    | true =>
      have := mark_connected_fail s now tL tF name cid v caps
      simp only [applyOp, this]
      exact hs
    | false =>
      cases hsel : (selectEq s name).head? with
      | some r =>
        rw [applyOp, mark_connected_found s now tL tF name cid v caps r hsel]
        simp only [updateEq]
        exact uniqueNames_map_preserving (updateFun_display_name name _) hs
      | none =>
        have hnil : selectEq s name = [] := by
          rwa [List.head?_eq_none_iff] at hsel
        rw [applyOp, mark_connected_new s now tL tF name cid v caps hnil]
        exact uniqueNames_append_single hs (not_name_of_selectEq_nil hnil)
  | disconnect fail now name =>
    cases fail with
    | true =>
      simp only [applyOp, mark_disconnected]
      simpa using hs
    | false =>
      cases hsel : (selectEq s name).head? with
      | some r =>
        rw [applyOp, mark_disconnected_found s now name r hsel]
        simp only [updateEq]
        exact uniqueNames_map_preserving (updateFun_display_name name _) hs
      | none =>
        have hnil : selectEq s name = [] := by
          rwa [List.head?_eq_none_iff] at hsel
        rw [applyOp, mark_disconnected_new s now name hnil]
        have hmap :
            s.map (fun r =>
              if r.display_name == name then
                applyUpdate { status := "disconnected", last_seen := now } r
              else r) = s :=
          updateEq_store_of_none _ hnil
        rw [hmap]
        exact uniqueNames_append_single hs (not_name_of_selectEq_nil hnil)

/-- Running any sequence of operations preserves uniqueness. -/
theorem uniqueNames_runOps {s : Store} (hs : uniqueNames s) (ops : List Op) :
    uniqueNames (runOps s ops) := by
  induction ops generalizing s with
  | nil => exact hs
  | cons op rest ih => exact ih (uniqueNames_applyOp hs op)

theorem headOpt_map {α β : Type} (f : α → β) (l : List α) :
    (l.map f).head? = l.head?.map f := by
  cases l <;> rfl

/-- The Python sort key order is transitive. -/
theorem pyKeyLe_trans : ∀ a b c : Row, pyKeyLe a b → pyKeyLe b c → pyKeyLe a c := by
  intro a b c hab hbc
  simp only [pyKeyLe, Bool.or_eq_true, Bool.and_eq_true, decide_eq_true_eq,
    beq_iff_eq] at hab hbc ⊢
  rcases hab with h1 | ⟨h1, h1'⟩ <;> rcases hbc with h2 | ⟨h2, h2'⟩
  · exact Or.inl (h1.trans h2)
  · exact Or.inl (h2 ▸ h1)
  · exact Or.inl (h1 ▸ h2)
  · exact Or.inr ⟨h1.trans h2, le_trans h1' h2'⟩

/-- The Python sort key order is total. -/
theorem pyKeyLe_total : ∀ a b : Row, pyKeyLe a b || pyKeyLe b a := by
  intro a b
  simp only [pyKeyLe, Bool.or_eq_true, Bool.and_eq_true, decide_eq_true_eq, beq_iff_eq]
  rcases Nat.lt_trichotomy (statusRank a) (statusRank b) with h | h | h
  · exact Or.inl (Or.inl h)
  · rcases le_total a.display_name b.display_name with hn | hn
    · exact Or.inl (Or.inr ⟨h, hn⟩)
    · exact Or.inr (Or.inr ⟨h.symm, hn⟩)
  · exact Or.inr (Or.inl h)

theorem pyKeyLe_iff (a b : Row) :
    pyKeyLe a b = true ↔
      (statusRank a < statusRank b ∨
        (statusRank a = statusRank b ∧ a.display_name ≤ b.display_name)) := by
  simp [pyKeyLe, Bool.or_eq_true, Bool.and_eq_true, decide_eq_true_eq, beq_iff_eq]

/-- On the success path, `list_all` is a permutation of the models of the
stored rows. -/
theorem list_all_perm (s : Store) : (list_all s false).Perm (s.map to_model) := by
  simp only [list_all, Bool.false_eq_true, if_false]
  exact ((List.mergeSort_perm _ _).trans (List.mergeSort_perm _ _)).map to_model

/-- The success-path output of `list_all` is sorted by
(status rank, display name) lexicographically. -/
theorem list_all_pairwise (s : Store) :
    (list_all s false).Pairwise (fun a b =>
      statusRankC a < statusRankC b ∨
        (statusRankC a = statusRankC b ∧ a.display_name ≤ b.display_name)) := by
  have hs := List.sorted_mergeSort pyKeyLe_trans pyKeyLe_total (s.mergeSort lastSeenDescLe)
  simp only [list_all, Bool.false_eq_true, if_false]
  rw [List.pairwise_map]
  refine hs.imp ?_
  intro a b hab
  rw [pyKeyLe_iff] at hab
  exact hab

/-- After a successful `mark_connected`, the first stored row for the name
is the row whose model the call returned; it is connected and stamped with
the call's clock read. -/
theorem connect_store_head (s : Store) (now tLast tFirst : Nat) (name : String)
    (cid v : Option String) (caps : Option Caps) :
    ∃ row : Row,
      (selectEq (mark_connected s false now tLast tFirst name cid v caps).2 name).head?
        = some row ∧
      to_model row = (mark_connected s false now tLast tFirst name cid v caps).1 ∧
      row.status = "connected" ∧ row.last_seen = some now := by
  cases hsel : (selectEq s name).head? with
  | some r =>
    rw [mark_connected_found s now tLast tFirst name cid v caps r hsel]
    refine ⟨applyUpdate
      { status := "connected", last_seen := now, client_id := cid,
        last_seen_version := v, capabilities := caps } r, ?_, rfl, rfl, rfl⟩
    rw [selectEq_updateEq, headOpt_map, hsel]
    rfl
  | none =>
    have hnil : selectEq s name = [] := by rwa [List.head?_eq_none_iff] at hsel
    rw [mark_connected_new s now tLast tFirst name cid v caps hnil]
    refine ⟨_, ?_, rfl, rfl, rfl⟩
    simp only [selectEq] at hnil ⊢
    rw [List.filter_append, hnil]
    simp

/-- A supplied `client_id` lands in the record `mark_connected` returns. -/
theorem connect_result_client_id_supplied (s : Store) (now tLast tFirst : Nat)
    (name a : String) (v : Option String) (caps : Option Caps) :
    (mark_connected s false now tLast tFirst name (some a) v caps).1.client_id
      = some a := by
  cases hsel : (selectEq s name).head? with
  | some r =>
    rw [mark_connected_found s now tLast tFirst name (some a) v caps r hsel]
    rfl
  | none =>
    have hnil : selectEq s name = [] := by rwa [List.head?_eq_none_iff] at hsel
    rw [mark_connected_new s now tLast tFirst name (some a) v caps hnil]
    rfl

/-- The record returned by a successful `mark_connected` is connected. -/
theorem connect_result_status (s : Store) (now tLast tFirst : Nat) (name : String)
    (cid v : Option String) (caps : Option Caps) :
    (mark_connected s false now tLast tFirst name cid v caps).1.status
      = "connected" := by
  cases hsel : (selectEq s name).head? with
  | some r =>
    rw [mark_connected_found s now tLast tFirst name cid v caps r hsel]
    rfl
  | none =>
    have hnil : selectEq s name = [] := by rwa [List.head?_eq_none_iff] at hsel
    rw [mark_connected_new s now tLast tFirst name cid v caps hnil]
    rfl

/-- The record returned by a successful `mark_connected` carries the call's
clock read as `last_seen`. -/
theorem connect_result_last_seen (s : Store) (now tLast tFirst : Nat) (name : String)
    (cid v : Option String) (caps : Option Caps) :
    (mark_connected s false now tLast tFirst name cid v caps).1.last_seen
      = some now := by
  cases hsel : (selectEq s name).head? with
  | some r =>
    rw [mark_connected_found s now tLast tFirst name cid v caps r hsel]
    rfl
  | none =>
    have hnil : selectEq s name = [] := by rwa [List.head?_eq_none_iff] at hsel
    rw [mark_connected_new s now tLast tFirst name cid v caps hnil]
    rfl

/-- Any stored row shows up in a successful listing. -/
theorem listable_of_mem {s : Store} {r : Row} (hr : r ∈ s) :
    ∃ c ∈ list_all s false, c.display_name = r.display_name := by
  refine ⟨to_model r, ?_, rfl⟩
  rw [(list_all_perm s).mem_iff]
  exact List.mem_map_of_mem to_model hr

/-! ### Claim theorems -/

/-- C3: if the backend fails during `mark_connected`, the error is not
propagated; the call returns an in-memory record constructed from the call's
inputs with status `"connected"` and fresh timestamps (the two clock reads
of the handler), leaving the table untouched. -/
theorem connected_failure_returns_inmemory_record (s : Store) (now tLast tFirst : Nat)
    (name : String) (cid v : Option String) (caps : Option Caps) :
    mark_connected s true now tLast tFirst name cid v caps =
      ({ display_name := name, status := "connected", client_id := cid
         last_seen := some tLast, first_seen := some tFirst
         last_seen_version := v, capabilities := some (caps.getD []) }, s) :=
  mark_connected_fail s now tLast tFirst name cid v caps

/-- C6: no operation propagates a backend error; on failure
`mark_disconnected` returns `none`, `list_all` returns `[]`, `exists`
returns `false`, and `mark_connected` still returns a record (its fallback)
while leaving the table untouched. -/
theorem backend_errors_never_propagate (s : Store) (now tLast tFirst : Nat)
    (name : String) (cid v : Option String) (caps : Option Caps) :
    mark_disconnected s true now name = (none, s) ∧
    list_all s true = [] ∧
    exists_ s true name = false ∧
    (mark_connected s true now tLast tFirst name cid v caps).2 = s ∧
    (mark_connected s true now tLast tFirst name cid v caps).1.status = "connected" :=
  ⟨rfl, rfl, rfl, rfl, rfl⟩

/-- C4: `mark_disconnected` on a display name with no stored record creates
and returns a record with status `"disconnected"` and
`first_seen = last_seen`, and afterwards that display name appears in
`list_all`. -/
theorem disconnect_unknown_creates_record (s : Store) (now : Nat) (name : String)
    (h : selectEq s name = []) :
    ∃ c, (mark_disconnected s false now name).1 = some c ∧
      c.status = "disconnected" ∧
      c.first_seen = some now ∧ c.last_seen = some now ∧
      c.first_seen = c.last_seen ∧ c.display_name = name ∧
      ∃ c' ∈ list_all (mark_disconnected s false now name).2 false,
        c'.display_name = name := by
  rw [mark_disconnected_new s now name h]
  refine ⟨_, rfl, rfl, rfl, rfl, rfl, rfl, ?_⟩
  exact listable_of_mem (List.mem_append_right _ (List.mem_singleton.mpr rfl))

/-- C10: the record created by `mark_disconnected` for an unknown display
name has `client_id`, `last_seen_version` and `capabilities` all absent; in
contrast the insert path of `mark_connected` defaults `capabilities` to the
empty document. -/
theorem disconnect_creates_bare_record (s : Store) (now tLast tFirst : Nat)
    (name : String) (h : selectEq s name = []) :
    (∀ c, (mark_disconnected s false now name).1 = some c →
      c.client_id = none ∧ c.last_seen_version = none ∧ c.capabilities = none) ∧
    (mark_connected s false now tLast tFirst name none none none).1.capabilities
      = some [] := by
  constructor
  · intro c hc
    rw [mark_disconnected_new s now name h] at hc
    simp only [Option.some.injEq] at hc
    subst hc
    exact ⟨rfl, rfl, rfl⟩
  · rw [mark_connected_new s now tLast tFirst name none none none h]
    rfl

/-- C1: for an existing record, `mark_connected` with no optional fields
supplied leaves `client_id`, `last_seen_version` and `capabilities`
unchanged in the returned record and in the stored row; in particular
connecting with `client_id = some a` and then connecting with no
`client_id` still leaves `client_id = some a`. -/
theorem connected_coalesces_absent_optionals (s s0 : Store)
    (now now' tL tF tL' tF' : Nat) (name a : String) (r : Row)
    (h : (selectEq s name).head? = some r) :
    ((mark_connected s false now tL tF name none none none).1.client_id
        = r.client_id ∧
     (mark_connected s false now tL tF name none none none).1.last_seen_version
        = r.last_seen_version ∧
     (mark_connected s false now tL tF name none none none).1.capabilities
        = r.capabilities ∧
     (selectEq (mark_connected s false now tL tF name none none none).2 name).head?.map
        Row.client_id = some r.client_id) ∧
    (mark_connected ((mark_connected s0 false now' tL' tF' name (some a) none none).2)
        false now tL tF name none none none).1.client_id = some a := by
  constructor
  · rw [mark_connected_found s now tL tF name none none none r h]
    refine ⟨rfl, rfl, rfl, ?_⟩
    rw [selectEq_updateEq, headOpt_map, h]
    rfl
  · obtain ⟨row, hhead, hmodel, _, _⟩ :=
      connect_store_head s0 now' tL' tF' name (some a) none none
    have hcid : row.client_id = some a := by
      have := congrArg MCPClient.client_id hmodel
      simpa [to_model, connect_result_client_id_supplied] using this
    rw [mark_connected_found _ now tL tF name none none none row hhead]
    simpa [to_model, applyUpdate] using hcid

/-- C7: for an existing record, neither a subsequent `mark_connected` nor a
subsequent `mark_disconnected` for its display name changes any stored
`first_seen`; the records both calls return also carry the old
`first_seen`. -/
theorem first_seen_never_updated (s : Store) (now tL tF : Nat) (name : String)
    (cid v : Option String) (caps : Option Caps) (r : Row)
    (h : (selectEq s name).head? = some r) :
    (selectEq (mark_connected s false now tL tF name cid v caps).2 name).map
        Row.first_seen = (selectEq s name).map Row.first_seen ∧
    (mark_connected s false now tL tF name cid v caps).1.first_seen = r.first_seen ∧
    (selectEq (mark_disconnected s false now name).2 name).map Row.first_seen
        = (selectEq s name).map Row.first_seen ∧
    (∀ c, (mark_disconnected s false now name).1 = some c →
        c.first_seen = r.first_seen) := by
  refine ⟨?_, ?_, ?_, ?_⟩
  · rw [mark_connected_found s now tL tF name cid v caps r h, selectEq_updateEq,
      List.map_map]
    exact List.map_congr_left (fun x _ => rfl)
  · rw [mark_connected_found s now tL tF name cid v caps r h]
    rfl
  · rw [mark_disconnected_found s now name r h, selectEq_updateEq, List.map_map]
    exact List.map_congr_left (fun x _ => rfl)
  · intro c hc
    rw [mark_disconnected_found s now name r h] at hc
    simp only [Option.some.injEq] at hc
    subst hc
    rfl

/-- C8: two successive successful `mark_connected` calls for the same
display name with no optional fields both yield status `"connected"`, keep
`first_seen` unchanged, and stamp `last_seen` with each call's clock read,
so under a monotone clock the second `last_seen` is at least the first. -/
theorem connected_idempotent_status_advances_last_seen (s : Store)
    (now1 now2 tL tF tL' tF' : Nat) (name : String) (h : now1 ≤ now2) :
    (mark_connected s false now1 tL tF name none none none).1.status
        = "connected" ∧
    (mark_connected (mark_connected s false now1 tL tF name none none none).2
        false now2 tL' tF' name none none none).1.status = "connected" ∧
    (mark_connected (mark_connected s false now1 tL tF name none none none).2
        false now2 tL' tF' name none none none).1.first_seen
      = (mark_connected s false now1 tL tF name none none none).1.first_seen ∧
    (mark_connected s false now1 tL tF name none none none).1.last_seen
        = some now1 ∧
    (mark_connected (mark_connected s false now1 tL tF name none none none).2
        false now2 tL' tF' name none none none).1.last_seen = some now2 ∧
    (∀ t1 t2,
      (mark_connected s false now1 tL tF name none none none).1.last_seen = some t1 →
      (mark_connected (mark_connected s false now1 tL tF name none none none).2
          false now2 tL' tF' name none none none).1.last_seen = some t2 →
      t1 ≤ t2) := by
  obtain ⟨row, hhead, hmodel, _, _⟩ := connect_store_head s now1 tL tF name none none none
  refine ⟨connect_result_status s now1 tL tF name none none none,
    connect_result_status _ now2 tL' tF' name none none none, ?_,
    connect_result_last_seen s now1 tL tF name none none none,
    connect_result_last_seen _ now2 tL' tF' name none none none, ?_⟩
  · rw [mark_connected_found _ now2 tL' tF' name none none none row hhead]
    have := congrArg MCPClient.first_seen hmodel
    simpa [to_model, applyUpdate] using this
  · intro t1 t2 h1 h2
    rw [connect_result_last_seen s now1 tL tF name none none none] at h1
    rw [connect_result_last_seen _ now2 tL' tF' name none none none] at h2
    simp only [Option.some.injEq] at h1 h2
    subst h1
    subst h2
    exact h

/-- C5: a successful `list_all` returns exactly the stored records (a
permutation of their models), with every connected record preceding every
disconnected one and display names ascending within each status group. -/
theorem list_all_connected_first_names_ascending (s : Store) :
    (list_all s false).Perm (s.map to_model) ∧
    (list_all s false).Pairwise (fun a b =>
      statusRankC a < statusRankC b ∨
        (statusRankC a = statusRankC b ∧ a.display_name ≤ b.display_name)) :=
  ⟨list_all_perm s, list_all_pairwise s⟩

theorem clientFLOK_to_model (r : Row) : clientFLOK (to_model r) = rowFLOK r := rfl

/-- An updated row keeps `first_seen ≤ last_seen` as long as its old
`first_seen` does not exceed the update's stamp. -/
theorem rowFLOK_applyUpdate {r : Row} {u : UpdatePayload}
    (h : ∀ t, r.first_seen = some t → t ≤ u.last_seen) :
    rowFLOK (applyUpdate u r) = true := by
  have hfs : (applyUpdate u r).first_seen = r.first_seen := rfl
  have hls : (applyUpdate u r).last_seen = some u.last_seen := rfl
  unfold rowFLOK
  rw [hfs, hls]
  cases hf : r.first_seen with
  | none => rfl
  | some f => simpa using h f hf

/-- C2 counterexample: when the monotone clock advances between the failure
handler's two `_now_iso()` reads (`last_seen` is read before `first_seen`),
the fallback record of `mark_connected` has `first_seen > last_seen`,
refuting `first_seen ≤ last_seen` for every record any operation returns. -/
theorem first_le_last_fallback_counterexample :
    (mark_connected [] true 0 0 1 "agent1" none none none).1.first_seen = some 1 ∧
    (mark_connected [] true 0 0 1 "agent1" none none none).1.last_seen = some 0 ∧
    clientFLOK (mark_connected [] true 0 0 1 "agent1" none none none).1 = false :=
  ⟨rfl, rfl, rfl⟩

/-- C2 amended: `first_seen ≤ last_seen` holds for the record returned and
every row stored by the successful paths of `mark_connected` and
`mark_disconnected` (given it held before and the clock has not passed the
call's read); the backend-failure fallback record instead carries the
handler's earlier clock read in `last_seen` and its later one in
`first_seen`, so `first_seen ≤ last_seen` holds for it exactly when the two
reads coincide. -/
theorem first_le_last_amended (s : Store) (now tLast tFirst : Nat) (name : String)
    (cid v : Option String) (caps : Option Caps)
    (hrows : ∀ r ∈ s, rowFLOK r = true) (htimes : storeTimesLE s now) :
    clientFLOK (mark_connected s false now tLast tFirst name cid v caps).1 = true ∧
    (∀ r ∈ (mark_connected s false now tLast tFirst name cid v caps).2,
        rowFLOK r = true) ∧
    (∀ c, (mark_disconnected s false now name).1 = some c → clientFLOK c = true) ∧
    (∀ r ∈ (mark_disconnected s false now name).2, rowFLOK r = true) ∧
    (mark_connected s true now tLast tFirst name cid v caps).1.last_seen
        = some tLast ∧
    (mark_connected s true now tLast tFirst name cid v caps).1.first_seen
        = some tFirst ∧
    (tLast = tFirst →
      clientFLOK (mark_connected s true now tLast tFirst name cid v caps).1
        = true) := by
  refine ⟨?_, ?_, ?_, ?_, rfl, rfl, ?_⟩
  · cases hsel : (selectEq s name).head? with
    | some r =>
      have hrs : r ∈ s := by
        obtain ⟨t, ht⟩ := selectEq_head?_eq_some hsel
        exact mem_of_mem_selectEq (ht ▸ List.mem_cons_self r t)
      rw [mark_connected_found s now tLast tFirst name cid v caps r hsel,
        clientFLOK_to_model]
      exact rowFLOK_applyUpdate (fun t ht => (htimes r hrs).1 t ht)
    | none =>
      have hnil : selectEq s name = [] := by rwa [List.head?_eq_none_iff] at hsel
      rw [mark_connected_new s now tLast tFirst name cid v caps hnil,
        clientFLOK_to_model]
      simp [rowFLOK]
  · intro x hx
    cases hsel : (selectEq s name).head? with
    | some r =>
      rw [mark_connected_found s now tLast tFirst name cid v caps r hsel] at hx
      simp only [updateEq] at hx
      obtain ⟨y, hy, hgy⟩ := List.mem_map.mp hx
      by_cases hb : y.display_name == name
      · rw [if_pos hb] at hgy
        subst hgy
        exact rowFLOK_applyUpdate (fun t ht => (htimes y hy).1 t ht)
      · rw [if_neg hb] at hgy
        subst hgy
        exact hrows y hy
    | none =>
      have hnil : selectEq s name = [] := by rwa [List.head?_eq_none_iff] at hsel
      rw [mark_connected_new s now tLast tFirst name cid v caps hnil] at hx
      rcases List.mem_append.mp hx with hx | hx
      · exact hrows x hx
      · rw [List.mem_singleton] at hx
        subst hx
        simp [rowFLOK]
  · intro c hc
    cases hsel : (selectEq s name).head? with
    | some r =>
      have hrs : r ∈ s := by
        obtain ⟨t, ht⟩ := selectEq_head?_eq_some hsel
        exact mem_of_mem_selectEq (ht ▸ List.mem_cons_self r t)
      rw [mark_disconnected_found s now name r hsel] at hc
      simp only [Option.some.injEq] at hc
      subst hc
      rw [clientFLOK_to_model]
      exact rowFLOK_applyUpdate (fun t ht => (htimes r hrs).1 t ht)
    | none =>
      have hnil : selectEq s name = [] := by rwa [List.head?_eq_none_iff] at hsel
      rw [mark_disconnected_new s now name hnil] at hc
      simp only [Option.some.injEq] at hc
      subst hc
      rw [clientFLOK_to_model]
      simp [rowFLOK]
  · intro x hx
    cases hsel : (selectEq s name).head? with
    | some r =>
      rw [mark_disconnected_found s now name r hsel] at hx
      simp only [updateEq] at hx
      obtain ⟨y, hy, hgy⟩ := List.mem_map.mp hx
      by_cases hb : y.display_name == name
      · rw [if_pos hb] at hgy
        subst hgy
        exact rowFLOK_applyUpdate (fun t ht => (htimes y hy).1 t ht)
      · rw [if_neg hb] at hgy
        subst hgy
        exact hrows y hy
    | none =>
      have hnil : selectEq s name = [] := by rwa [List.head?_eq_none_iff] at hsel
      rw [mark_disconnected_new s now name hnil] at hx
      have hmap :
          s.map (fun r =>
            if r.display_name == name then
              applyUpdate { status := "disconnected", last_seen := now } r
            else r) = s :=
        updateEq_store_of_none _ hnil
      rw [hmap] at hx
      rcases List.mem_append.mp hx with hx | hx
      · exact hrows x hx
      · rw [List.mem_singleton] at hx
        subst hx
        simp [rowFLOK]
  · intro heq
    subst heq
    simp [mark_connected, clientFLOK]

/-- Counting by name is the same in a successful listing as in the table. -/
theorem countNameC_list_all (s : Store) (name : String) :
    countNameC (list_all s false) name = countName s name := by
  unfold countNameC countName
  rw [(list_all_perm s).countP_eq, List.countP_map]
  rfl

/-- A successful `mark_connected` on a uniquely-named table leaves exactly
one row with the connected name. -/
theorem countName_after_connect (s : Store) (now tLast tFirst : Nat) (name : String)
    (cid v : Option String) (caps : Option Caps) (hs : uniqueNames s) :
    countName (mark_connected s false now tLast tFirst name cid v caps).2 name
      = 1 := by
  cases hsel : (selectEq s name).head? with
  | some r =>
    rw [mark_connected_found s now tLast tFirst name cid v caps r hsel]
    have hmap :
        countName (updateEq s name
          { status := "connected", last_seen := now, client_id := cid,
            last_seen_version := v, capabilities := caps }).2 name
          = countName s name := by
      simp only [updateEq]
      exact countName_map_preserving (updateFun_display_name name _) name
    rw [hmap]
    have hge : 1 ≤ countName s name := by
      rw [countName_eq_length]
      obtain ⟨t, ht⟩ := selectEq_head?_eq_some hsel
      rw [ht]
      simp
    have hle := countName_le_one_of_uniqueNames hs name
    omega
  | none =>
    have hnil : selectEq s name = [] := by rwa [List.head?_eq_none_iff] at hsel
    rw [mark_connected_new s now tLast tFirst name cid v caps hnil,
      countName_append_single]
    have h0 : countName s name = 0 := selectEq_eq_nil_iff.mp hnil
    simp [h0]

/-- After a successful `mark_connected`, every stored row carrying the
connected name has status connected. -/
theorem status_connected_after_connect {s : Store} {now tLast tFirst : Nat}
    {name : String} {cid v : Option String} {caps : Option Caps} {x : Row}
    (hx : x ∈ (mark_connected s false now tLast tFirst name cid v caps).2)
    (hname : x.display_name = name) : x.status = "connected" := by
  cases hsel : (selectEq s name).head? with
  | some r =>
    rw [mark_connected_found s now tLast tFirst name cid v caps r hsel] at hx
    simp only [updateEq] at hx
    obtain ⟨y, hy, hgy⟩ := List.mem_map.mp hx
    by_cases hb : y.display_name == name
    · rw [if_pos hb] at hgy
      subst hgy
      rfl
    · rw [if_neg hb] at hgy
      subst hgy
      exact absurd hname (by simpa using hb)
  | none =>
    have hnil : selectEq s name = [] := by rwa [List.head?_eq_none_iff] at hsel
    rw [mark_connected_new s now tLast tFirst name cid v caps hnil] at hx
    rcases List.mem_append.mp hx with hx | hx
    · exact absurd hname (not_name_of_selectEq_nil hnil x hx)
    · rw [List.mem_singleton] at hx
      subst hx
      rfl

/-- C9: display names stay unique — after any operation sequence from the
empty table each name occurs at most once — and on any uniquely-named table
`mark_connected` followed by `list_all` (both successful) yields exactly one
record with the connected name, whose status is `"connected"`. -/
theorem display_name_unique_upsert (ops : List Op) (s : Store) (name : String)
    (now tLast tFirst : Nat) (cid v : Option String) (caps : Option Caps)
    (hs : uniqueNames s) :
    countName (runOps [] ops) name ≤ 1 ∧
    countNameC
      (list_all (mark_connected s false now tLast tFirst name cid v caps).2 false)
      name = 1 ∧
    (∀ c ∈ list_all (mark_connected s false now tLast tFirst name cid v caps).2 false,
        c.display_name = name → c.status = "connected") := by
  refine ⟨?_, ?_, ?_⟩
  · exact countName_le_one_of_uniqueNames
      (uniqueNames_runOps List.Pairwise.nil ops) name
  · rw [countNameC_list_all]
    exact countName_after_connect s now tLast tFirst name cid v caps hs
  · intro c hc hname
    rw [(list_all_perm _).mem_iff] at hc
    obtain ⟨x, hx, hxc⟩ := List.mem_map.mp hc
    subst hxc
    exact status_connected_after_connect hx hname

/-! ### Concrete witnesses -/

/-- Witness for C1 at a one-row table holding `sampleRow`. -/
theorem connected_coalesces_absent_optionals_witness :
    (selectEq [sampleRow] "agent1").head? = some sampleRow ∧
    (((mark_connected [sampleRow] false 10 0 0 "agent1" none none none).1.client_id
        = sampleRow.client_id ∧
      (mark_connected [sampleRow] false 10 0 0 "agent1" none none none).1.last_seen_version
        = sampleRow.last_seen_version ∧
      (mark_connected [sampleRow] false 10 0 0 "agent1" none none none).1.capabilities
        = sampleRow.capabilities ∧
      (selectEq (mark_connected [sampleRow] false 10 0 0 "agent1" none none none).2
          "agent1").head?.map Row.client_id = some sampleRow.client_id) ∧
     (mark_connected ((mark_connected [] false 11 0 0 "agent1" (some "B") none none).2)
        false 10 0 0 "agent1" none none none).1.client_id = some "B") :=
  ⟨by decide,
   connected_coalesces_absent_optionals [sampleRow] [] 10 11 0 0 0 0 "agent1" "B"
     sampleRow (by decide)⟩

/-- Witness for C2's amended statement at the empty table. -/
theorem first_le_last_amended_witness :
    (∀ r ∈ ([] : Store), rowFLOK r = true) ∧ storeTimesLE [] 5 ∧
    (clientFLOK (mark_connected [] false 5 3 4 "agent1" none none none).1 = true ∧
     (∀ r ∈ (mark_connected [] false 5 3 4 "agent1" none none none).2,
        rowFLOK r = true) ∧
     (∀ c, (mark_disconnected [] false 5 "agent1").1 = some c →
        clientFLOK c = true) ∧
     (∀ r ∈ (mark_disconnected [] false 5 "agent1").2, rowFLOK r = true) ∧
     (mark_connected [] true 5 3 4 "agent1" none none none).1.last_seen = some 3 ∧
     (mark_connected [] true 5 3 4 "agent1" none none none).1.first_seen = some 4 ∧
     ((3 : Nat) = 4 →
       clientFLOK (mark_connected [] true 5 3 4 "agent1" none none none).1 = true)) :=
  ⟨by simp, by simp [storeTimesLE],
   first_le_last_amended [] 5 3 4 "agent1" none none none (by simp)
     (by simp [storeTimesLE])⟩

/-- Witness for C4 at the empty table. -/
theorem disconnect_unknown_creates_record_witness :
    selectEq [] "agent1" = [] ∧
    (∃ c, (mark_disconnected [] false 7 "agent1").1 = some c ∧
      c.status = "disconnected" ∧
      c.first_seen = some 7 ∧ c.last_seen = some 7 ∧
      c.first_seen = c.last_seen ∧ c.display_name = "agent1" ∧
      ∃ c' ∈ list_all (mark_disconnected [] false 7 "agent1").2 false,
        c'.display_name = "agent1") :=
  ⟨rfl, disconnect_unknown_creates_record [] 7 "agent1" rfl⟩

/-- Witness for C7 at a one-row table holding `sampleRow`. -/
theorem first_seen_never_updated_witness :
    (selectEq [sampleRow] "agent1").head? = some sampleRow ∧
    ((selectEq (mark_connected [sampleRow] false 9 0 0 "agent1" (some "C")
        (some "2.0") (some [("x", "y")])).2 "agent1").map Row.first_seen
        = (selectEq [sampleRow] "agent1").map Row.first_seen ∧
     (mark_connected [sampleRow] false 9 0 0 "agent1" (some "C") (some "2.0")
        (some [("x", "y")])).1.first_seen = sampleRow.first_seen ∧
     (selectEq (mark_disconnected [sampleRow] false 9 "agent1").2 "agent1").map
        Row.first_seen = (selectEq [sampleRow] "agent1").map Row.first_seen ∧
     (∀ c, (mark_disconnected [sampleRow] false 9 "agent1").1 = some c →
        c.first_seen = sampleRow.first_seen)) :=
  ⟨by decide,
   first_seen_never_updated [sampleRow] 9 0 0 "agent1" (some "C") (some "2.0")
     (some [("x", "y")]) sampleRow (by decide)⟩

/-- Witness for C8 at the empty table with clock reads 1 then 2. -/
theorem connected_idempotent_witness :
    (1 : Nat) ≤ 2 ∧
    ((mark_connected [] false 1 0 0 "agent1" none none none).1.status
        = "connected" ∧
     (mark_connected (mark_connected [] false 1 0 0 "agent1" none none none).2
        false 2 0 0 "agent1" none none none).1.status = "connected" ∧
     (mark_connected (mark_connected [] false 1 0 0 "agent1" none none none).2
        false 2 0 0 "agent1" none none none).1.first_seen
      = (mark_connected [] false 1 0 0 "agent1" none none none).1.first_seen ∧
     (mark_connected [] false 1 0 0 "agent1" none none none).1.last_seen
        = some 1 ∧
     (mark_connected (mark_connected [] false 1 0 0 "agent1" none none none).2
        false 2 0 0 "agent1" none none none).1.last_seen = some 2 ∧
     (∀ t1 t2,
       (mark_connected [] false 1 0 0 "agent1" none none none).1.last_seen
          = some t1 →
       (mark_connected (mark_connected [] false 1 0 0 "agent1" none none none).2
          false 2 0 0 "agent1" none none none).1.last_seen = some t2 →
       t1 ≤ t2)) :=
  ⟨by decide,
   connected_idempotent_status_advances_last_seen [] 1 2 0 0 0 0 "agent1"
     (by decide)⟩

/-- Witness for C9 at the empty operation sequence and empty table. -/
theorem display_name_unique_upsert_witness :
    uniqueNames [] ∧
    (countName (runOps [] []) "agent1" ≤ 1 ∧
     countNameC
       (list_all (mark_connected [] false 4 0 0 "agent1" none none none).2 false)
       "agent1" = 1 ∧
     (∀ c ∈ list_all (mark_connected [] false 4 0 0 "agent1" none none none).2 false,
        c.display_name = "agent1" → c.status = "connected")) :=
  ⟨List.Pairwise.nil,
   display_name_unique_upsert [] [] "agent1" 4 0 0 none none none
     List.Pairwise.nil⟩

/-- Witness for C10 at the empty table. -/
theorem disconnect_creates_bare_record_witness :
    selectEq [] "agent1" = [] ∧
    ((∀ c, (mark_disconnected [] false 6 "agent1").1 = some c →
       c.client_id = none ∧ c.last_seen_version = none ∧ c.capabilities = none) ∧
     (mark_connected [] false 6 0 0 "agent1" none none none).1.capabilities
       = some []) :=
  ⟨rfl, disconnect_creates_bare_record [] 6 0 0 "agent1" rfl⟩

end MCPRegistry
